import Mathlib

/-!
Shallow embedding of the CHIP-8 interpreter core (`src/chip8.rs`, with the
display/input state of `src/chip8_io.rs` modelled as plain data).

Machine integers are embedded as `Nat` with explicit wrap-around (`% 256`
for `u8`, masks for the 12-bit index register); Rust's panicking array
indexing is embedded as `Option` (a `none` result is an out-of-bounds
access); the `Result<T, Chip8Error>` plumbing is embedded by the `Outcome`
type, which keeps the partially mutated state on the error path exactly as
the Rust `?` operator does.  `Vec` push/pop on the call stack is embedded
as a Lean list whose head is the vector's last element.  The thread-local
RNG is embedded as an injected stream of samples, and the SDL key map as a
predicate `Nat → Bool`.
-/

/-- `MEMORY_SIZE` from chip8.rs. -/
def MEMORY_SIZE : Nat := 0x1000

/-- `ROM_START_ADDR` from chip8.rs. -/
def ROM_START_ADDR : Nat := 0x200

/-- `FONT_START_ADDR` from chip8.rs. -/
def FONT_START_ADDR : Nat := 0x50

/-- `FONT_SIZE` from chip8.rs. -/
def FONT_SIZE : Nat := 80

/-- `DISPLAY_WIDTH` from chip8_io.rs. -/
def DISPLAY_WIDTH : Nat := 64

/-- `DISPLAY_HEIGHT` from chip8_io.rs. -/
def DISPLAY_HEIGHT : Nat := 32

/-- `u8` wrapping addition (`u8::wrapping_add`). -/
def wrapping_add8 (a b : Nat) : Nat := (a + b) % 256

/-- `u8` wrapping subtraction (`u8::wrapping_sub`): on `u8` inputs
`a, b < 256` this is the two's-complement difference. -/
def wrapping_sub8 (a b : Nat) : Nat := (a % 256 + 256 - b % 256) % 256

/-- `u8` shift left by 1 (`<< 1` on `u8` keeps the low 8 bits). -/
def shl8 (a : Nat) : Nat := (a <<< 1) % 256

/-- The `Opcode` struct of chip8.rs. -/
structure Opcode where
  raw : Nat
  op_type : Nat
  x : Nat
  y : Nat
  n : Nat
deriving DecidableEq

/-- `Opcode::new`: field extraction by fixed-width masking. -/
def Opcode.new (raw : Nat) : Opcode :=
  { raw := raw
    op_type := (raw &&& 0xF000) >>> 12
    x := (raw &&& 0x0F00) >>> 8
    y := (raw &&& 0x00F0) >>> 4
    n := raw &&& 0x000F }

/-- `Opcode::get_nn`. -/
def Opcode.get_nn (o : Opcode) : Nat := o.raw &&& 0x00FF

/-- `Opcode::get_nnn`. -/
def Opcode.get_nnn (o : Opcode) : Nat := o.raw &&& 0x0FFF

/-- The `Chip8Error` enum of chip8.rs (the source spells the first
constructor `InvaidOpcode`). -/
inductive Chip8Error where
  | InvaidOpcode : Nat → Chip8Error
  | StackUnderflow : Opcode → Chip8Error
deriving DecidableEq

/-- The `Chip8IO` struct of chip8_io.rs, restricted to the state the core
reads and writes: the key map and the display buffer (row → col → RGBA
color word).  The name drops the upper-case suffix of the Rust struct. -/
structure Chip8Io where
  primary_color : Nat
  secondary_color : Nat
  keys_pressed : Nat → Bool
  display_buffer : Nat → Nat → Nat

/-- `Chip8IO::write_pixel` as called from chip8.rs: store a color word at
(row, col). -/
def Chip8Io.write_pixel (io : Chip8Io) (row col color : Nat) : Chip8Io :=
  { io with display_buffer := fun r c =>
      if r = row ∧ c = col then color else io.display_buffer r c }

/-- `Chip8IO::get_pixel_color`. -/
def Chip8Io.get_pixel_color (io : Chip8Io) (row col : Nat) : Nat :=
  io.display_buffer row col

/-- `Chip8IO::is_key_pressed`: `KEYS[key_num]` panics (`none`) when
`key_num` is 16 or more. -/
def Chip8Io.is_key_pressed (io : Chip8Io) (key_num : Nat) : Option Bool :=
  if key_num < 16 then some (io.keys_pressed key_num) else none

/-- The `Chip8` struct of chip8.rs.  `registers` and `memory` are embedded
as functions read at indices 0..15 and 0..4095; the RNG is an injected
sample stream. -/
structure Chip8 where
  io : Chip8Io
  primary_color : Nat
  secondary_color : Nat
  pc : Nat
  i : Nat
  delay_timer : Nat
  sound_timer : Nat
  registers : Nat → Nat
  stack : List Nat
  memory : Nat → Nat
  rng : List Nat

/-- `Chip8::new`. -/
def Chip8.new (io : Chip8Io) (primary_color secondary_color : Nat)
    (rng : List Nat) : Chip8 :=
  { io := io
    primary_color := primary_color
    secondary_color := secondary_color
    pc := ROM_START_ADDR
    i := 0
    delay_timer := 0
    sound_timer := 0
    registers := fun _ => 0
    stack := []
    memory := fun _ => 0
    rng := rng }

/-- Write general register `r` (`self.registers[r] = v`). -/
def Chip8.set_reg (s : Chip8) (r v : Nat) : Chip8 :=
  { s with registers := fun k => if k = r then v else s.registers k }

/-- `Chip8::set_vf`. -/
def Chip8.set_vf (s : Chip8) (value : Nat) : Chip8 :=
  s.set_reg 0xF value

/-- `Chip8::skip_pc`. -/
def Chip8.skip_pc (s : Chip8) : Chip8 :=
  { s with pc := s.pc + 2 }

/-- `Chip8::skip_pc_back`. -/
def Chip8.skip_pc_back (s : Chip8) : Chip8 :=
  { s with pc := s.pc - 2 }

/-- A guarded read of `self.memory[a]`: `none` is the Rust index panic. -/
def Chip8.mem_read (s : Chip8) (a : Nat) : Option Nat :=
  if a < MEMORY_SIZE then some (s.memory a) else none

/-- A guarded write `self.memory[a] = v`: `none` is the Rust index panic. -/
def Chip8.mem_write (s : Chip8) (a v : Nat) : Option Chip8 :=
  if a < MEMORY_SIZE then
    some { s with memory := fun b => if b = a then v else s.memory b }
  else none

/-- Write a pixel of the shared display through the `io` handle. -/
def Chip8.write_io_pixel (s : Chip8) (row col color : Nat) : Chip8 :=
  { s with io := s.io.write_pixel row col color }

/-- The visible result of one handler or one cycle: `ok` or an error, in
both cases with the (possibly partially) mutated machine state, as Rust's
`Result` plus in-place mutation leaves it. -/
inductive Outcome where
  | ok : Chip8 → Outcome
  | err : Chip8 → Chip8Error → Outcome

/-- `Chip8::update_timers`. -/
def Chip8.update_timers (s : Chip8) : Chip8 :=
  let s1 := if 0 < s.delay_timer then { s with delay_timer := s.delay_timer - 1 } else s
  if 0 < s1.sound_timer then { s1 with sound_timer := s1.sound_timer - 1 } else s1

/-- `Chip8::load_font`: copy `font_size` bytes to `FONT_START_ADDR..`. -/
def Chip8.load_font (s : Chip8) (font_buffer : List Nat) (font_size : Nat) : Chip8 :=
  { s with memory := fun a =>
      if FONT_START_ADDR ≤ a ∧ a < FONT_START_ADDR + font_size then
        font_buffer.getD (a - FONT_START_ADDR) 0
      else s.memory a }

/-- `Chip8::load_rom`: copy the ROM image to `ROM_START_ADDR..`. -/
def Chip8.load_rom (s : Chip8) (rom : List Nat) : Chip8 :=
  { s with memory := fun a =>
      if ROM_START_ADDR ≤ a ∧ a < ROM_START_ADDR + rom.length then
        rom.getD (a - ROM_START_ADDR) 0
      else s.memory a }

/-- The 00E0 clear loop of `exec_op_type0`: every (row, col) of the display
is written with the secondary color. -/
def Chip8.clear_display (s : Chip8) : Chip8 :=
  let cleared :=
    (List.range DISPLAY_HEIGHT).foldl
      (fun io row =>
        (List.range DISPLAY_WIDTH).foldl
          (fun io2 col => io2.write_pixel row col s.secondary_color) io)
      s.io
  { s with io := cleared }

/-- `Chip8::exec_op_type0` (00E0 clear, 00EE return). -/
def Chip8.exec_op_type0 (s : Chip8) (opcode : Opcode) : Outcome :=
  match opcode.get_nn with
  | 0xE0 => .ok s.clear_display
  | 0xEE =>
    match s.stack with
    | [] => .err s (.StackUnderflow opcode)
    | p :: rest => .ok { s with pc := p, stack := rest }
  | _ => .err s (.InvaidOpcode opcode.raw)

/-- `Chip8::exec_op_type1` (1NNN jump). -/
def Chip8.exec_op_type1 (s : Chip8) (opcode : Opcode) : Chip8 :=
  { s with pc := opcode.get_nnn }

/-- `Chip8::exec_op_type2` (2NNN call). -/
def Chip8.exec_op_type2 (s : Chip8) (opcode : Opcode) : Chip8 :=
  { s with stack := s.pc :: s.stack, pc := opcode.get_nnn }

/-- `Chip8::exec_op_type3` (3XNN skip if Vx == nn). -/
def Chip8.exec_op_type3 (s : Chip8) (opcode : Opcode) : Chip8 :=
  if s.registers opcode.x = opcode.get_nn then s.skip_pc else s

/-- `Chip8::exec_op_type4` (4XNN skip if Vx != nn). -/
def Chip8.exec_op_type4 (s : Chip8) (opcode : Opcode) : Chip8 :=
  if s.registers opcode.x ≠ opcode.get_nn then s.skip_pc else s

/-- `Chip8::exec_op_type5` (5XY0 skip if Vx == Vy). -/
def Chip8.exec_op_type5 (s : Chip8) (opcode : Opcode) : Chip8 :=
  if s.registers opcode.x = s.registers opcode.y then s.skip_pc else s

/-- `Chip8::exec_op_type6` (6XNN set Vx). -/
def Chip8.exec_op_type6 (s : Chip8) (opcode : Opcode) : Chip8 :=
  s.set_reg opcode.x opcode.get_nn

/-- `Chip8::exec_op_type7` (7XNN add immediate, wrapping). -/
def Chip8.exec_op_type7 (s : Chip8) (opcode : Opcode) : Chip8 :=
  s.set_reg opcode.x (wrapping_add8 (s.registers opcode.x) opcode.get_nn)

/-- `Chip8::exec_op_type8` (register-register ALU family). -/
def Chip8.exec_op_type8 (s : Chip8) (opcode : Opcode) : Outcome :=
  match opcode.n with
  | 0x0 => .ok (s.set_reg opcode.x (s.registers opcode.y))
  | 0x1 => .ok (s.set_reg opcode.x (s.registers opcode.x ||| s.registers opcode.y))
  | 0x2 => .ok (s.set_reg opcode.x (s.registers opcode.x &&& s.registers opcode.y))
  | 0x3 => .ok (s.set_reg opcode.x (s.registers opcode.x ^^^ s.registers opcode.y))
  | 0x4 =>
    let sum := wrapping_add8 (s.registers opcode.x) (s.registers opcode.y)
    let vf_value := if sum < s.registers opcode.x then 1 else 0
    .ok ((s.set_reg opcode.x sum).set_vf vf_value)
  | 0x5 =>
    let vf_value := if s.registers opcode.y ≤ s.registers opcode.x then 1 else 0
    .ok ((s.set_reg opcode.x
      (wrapping_sub8 (s.registers opcode.x) (s.registers opcode.y))).set_vf vf_value)
  | 0x6 =>
    let vf_value := s.registers opcode.x &&& 0x01
    .ok ((s.set_reg opcode.x (s.registers opcode.x >>> 1)).set_vf vf_value)
  | 0x7 =>
    let vf_value := if s.registers opcode.x ≤ s.registers opcode.y then 1 else 0
    .ok ((s.set_reg opcode.x
      (wrapping_sub8 (s.registers opcode.y) (s.registers opcode.x))).set_vf vf_value)
  | 0xE =>
    let vf_value := (s.registers opcode.x &&& 0x80) >>> 7
    .ok ((s.set_reg opcode.x (shl8 (s.registers opcode.x))).set_vf vf_value)
  | _ => .err s (.InvaidOpcode opcode.raw)

/-- `Chip8::exec_op_type9` (9XY0 skip if Vx != Vy). -/
def Chip8.exec_op_type9 (s : Chip8) (opcode : Opcode) : Chip8 :=
  if s.registers opcode.x ≠ s.registers opcode.y then s.skip_pc else s

/-- `Chip8::exec_op_type10` (ANNN set I). -/
def Chip8.exec_op_type10 (s : Chip8) (opcode : Opcode) : Chip8 :=
  { s with i := opcode.get_nnn }

/-- `Chip8::exec_op_type11` (BNNN jump with offset V0; the sum is not
masked). -/
def Chip8.exec_op_type11 (s : Chip8) (opcode : Opcode) : Chip8 :=
  { s with pc := opcode.get_nnn + s.registers 0 }

/-- `Chip8::exec_op_type12` (CXNN random): one sample of the injected
uniform stream, cast to `u8` and masked with `nn`. -/
def Chip8.exec_op_type12 (s : Chip8) (opcode : Opcode) : Chip8 :=
  ({ s with rng := s.rng.tail }).set_reg opcode.x
    ((s.rng.headD 0 % 256) &&& opcode.get_nn)

/-- The inner (column) loop of `exec_op_type13`: for each `j` of the list,
draw sprite row `row_index` at column `x_coord + j` of display row `new_y`,
clipping columns past the right edge.  The sprite byte is re-read from
`memory[self.i + row_index]` each iteration, as in the source. -/
def Chip8.draw_cols (s : Chip8) (x_coord new_y row_index : Nat) :
    List Nat → Option Chip8
  | [] => some s
  | j :: js =>
    let new_x := x_coord + j
    if DISPLAY_WIDTH ≤ new_x then s.draw_cols x_coord new_y row_index js
    else
      match s.mem_read (s.i + row_index) with
      | none => none
      | some byte =>
        let mask := 1 <<< (7 - j)
        let sprite_color := (byte &&& mask) >>> (7 - j)
        let prev_frame_color := s.io.get_pixel_color new_y new_x
        let s2 :=
          if sprite_color = 1 then
            if prev_frame_color = s.primary_color then
              (s.set_vf 1).write_io_pixel new_y new_x s.secondary_color
            else
              s.write_io_pixel new_y new_x s.primary_color
          else s
        s2.draw_cols x_coord new_y row_index js

/-- The outer (row) loop of `exec_op_type13`: sprite rows past the bottom
edge are clipped. -/
def Chip8.draw_rows (s : Chip8) (x_coord y_coord : Nat) :
    List Nat → Option Chip8
  | [] => some s
  | i :: is =>
    let new_y := y_coord + i
    if DISPLAY_HEIGHT ≤ new_y then s.draw_rows x_coord y_coord is
    else
      match s.draw_cols x_coord new_y i (List.range 8) with
      | none => none
      | some t => t.draw_rows x_coord y_coord is

/-- `Chip8::exec_op_type13` (DXYN draw sprite). -/
def Chip8.exec_op_type13 (s : Chip8) (opcode : Opcode) : Option Chip8 :=
  let x_coord := s.registers opcode.x % DISPLAY_WIDTH
  let y_coord := s.registers opcode.y % DISPLAY_HEIGHT
  (s.set_vf 0).draw_rows x_coord y_coord (List.range opcode.n)

/-- `Chip8::exec_op_type14` (EX9E / EXA1 key skips). -/
def Chip8.exec_op_type14 (s : Chip8) (opcode : Opcode) : Option Outcome :=
  match opcode.n with
  | 0x1 =>
    match s.io.is_key_pressed (s.registers opcode.x) with
    | none => none
    | some b => some (.ok (if b then s else s.skip_pc))
  | 0xE =>
    match s.io.is_key_pressed (s.registers opcode.x) with
    | none => none
    | some b => some (.ok (if b then s.skip_pc else s))
  | _ => some (.err s (.InvaidOpcode opcode.raw))

/-- The FX0A scan loop: the first held key of the list, if any. -/
def find_first_key (io : Chip8Io) : List Nat → Option Nat
  | [] => none
  | k :: ks => if io.keys_pressed k then some k else find_first_key io ks

/-- The FX33 digit loop (`while cur > 0`), with explicit fuel so that the
definition is structurally recursive and computes by reduction: decimal
digits of `cur`, least significant first.  `cur` itself bounds the number
of iterations, since `cur / 10 < cur` whenever `0 < cur`. -/
def lsb_digits_fuel : Nat → Nat → List Nat
  | 0, _ => []
  | fuel + 1, cur => if 0 < cur then cur % 10 :: lsb_digits_fuel fuel (cur / 10) else []

/-- The FX33 digit loop (`while cur > 0`): decimal digits of `cur`, least
significant first. -/
def lsb_digits (cur : Nat) : List Nat :=
  lsb_digits_fuel cur cur

/-- The FX33 padding loop (`while digits.len() < 3`). -/
def pad_digits (ds : List Nat) : List Nat :=
  ds ++ List.replicate (3 - ds.length) 0

/-- The FX33 store loop: write the list at `memory[self.i + index]`,
`index` counting up from its argument. -/
def Chip8.write_digits (s : Chip8) (index : Nat) : List Nat → Option Chip8
  | [] => some s
  | v :: vs =>
    match s.mem_write (s.i + index) v with
    | none => none
    | some t => t.write_digits (index + 1) vs

/-- The FX55 loop: `memory[self.i + k] = registers[k]` for each listed `k`. -/
def Chip8.store_regs (s : Chip8) : List Nat → Option Chip8
  | [] => some s
  | k :: ks =>
    match s.mem_write (s.i + k) (s.registers k) with
    | none => none
    | some t => t.store_regs ks

/-- The FX65 loop: `registers[k] = memory[self.i + k]` for each listed `k`. -/
def Chip8.load_regs (s : Chip8) : List Nat → Option Chip8
  | [] => some s
  | k :: ks =>
    match s.mem_read (s.i + k) with
    | none => none
    | some v => (s.set_reg k v).load_regs ks

/-- `Chip8::exec_op_type15` (the 0xF family).  In FX29 the `u8` product
`registers[x] * 5` wraps (release-profile semantics of the unchecked
multiply in the source). -/
def Chip8.exec_op_type15 (s : Chip8) (opcode : Opcode) : Option Outcome :=
  match opcode.get_nn with
  | 0x7 => some (.ok (s.set_reg opcode.x s.delay_timer))
  | 0x15 => some (.ok { s with delay_timer := s.registers opcode.x })
  | 0x18 => some (.ok { s with sound_timer := s.registers opcode.x })
  | 0x1E =>
    let s1 := { s with i := s.i + s.registers opcode.x }
    let s2 := if 0x1000 ≤ s1.i then s1.set_vf 1 else s1
    some (.ok { s2 with i := s2.i &&& 0xFFF })
  | 0x0A =>
    match find_first_key s.io (List.range 16) with
    | some k => some (.ok ((s.set_reg opcode.x k).skip_pc_back))
    | none => some (.ok s)
  | 0x29 =>
    some (.ok { s with i := FONT_START_ADDR + (s.registers opcode.x * 5) % 256 })
  | 0x33 =>
    match s.write_digits 0 (pad_digits (lsb_digits (s.registers opcode.x))).reverse with
    | none => none
    | some t => some (.ok t)
  | 0x55 =>
    match s.store_regs (List.range (opcode.x + 1)) with
    | none => none
    | some t => some (.ok t)
  | 0x65 =>
    match s.load_regs (List.range (opcode.x + 1)) with
    | none => none
    | some t => some (.ok t)
  | _ => some (.err s (.InvaidOpcode opcode.raw))

/-- `Chip8::run_cycle`: fetch the two instruction bytes at `pc` and
`pc + 1`, pre-advance `pc` by 2, then dispatch on the leading nibble. -/
def Chip8.run_cycle (s : Chip8) : Option Outcome :=
  match s.mem_read s.pc, s.mem_read (s.pc + 1) with
  | some hi, some lo =>
    let opcod_raw := (hi <<< 8) ||| lo
    let opcode := Opcode.new opcod_raw
    let s1 := s.skip_pc
    match opcode.op_type with
    | 0x0 => some (s1.exec_op_type0 opcode)
    | 0x1 => some (.ok (s1.exec_op_type1 opcode))
    | 0x2 => some (.ok (s1.exec_op_type2 opcode))
    | 0x3 => some (.ok (s1.exec_op_type3 opcode))
    | 0x4 => some (.ok (s1.exec_op_type4 opcode))
    | 0x5 => some (.ok (s1.exec_op_type5 opcode))
    | 0x6 => some (.ok (s1.exec_op_type6 opcode))
    | 0x7 => some (.ok (s1.exec_op_type7 opcode))
    | 0x8 => some (s1.exec_op_type8 opcode)
    | 0x9 => some (.ok (s1.exec_op_type9 opcode))
    | 0xA => some (.ok (s1.exec_op_type10 opcode))
    | 0xB => some (.ok (s1.exec_op_type11 opcode))
    | 0xC => some (.ok (s1.exec_op_type12 opcode))
    | 0xD =>
      match s1.exec_op_type13 opcode with
      | none => none
      | some t => some (.ok t)
    | 0xE => s1.exec_op_type14 opcode
    | 0xF => s1.exec_op_type15 opcode
    | _ => some (.err s1 (.InvaidOpcode opcode.raw))
  | _, _ => none

/-- The host may change the held-key map between cycles (input polling). -/
def Chip8.set_keys (s : Chip8) (keys : Nat → Bool) : Chip8 :=
  { s with io := { s.io with keys_pressed := keys } }

/-- The machine states the program can put the core in: boot as `main.rs`
does (`Chip8::new`, then `load_rom` with at most 0xE00 bytes, then
`load_font` with the 80-byte font), then any interleaving of successful
cycles, timer ticks, and host key-map updates. -/
inductive Reachable : Chip8 → Prop
  | boot (io : Chip8Io) (pcol scol : Nat) (rng font rom : List Nat)
      (hfont : font.length = FONT_SIZE)
      (hrom : rom.length ≤ MEMORY_SIZE - ROM_START_ADDR) :
      Reachable (((Chip8.new io pcol scol rng).load_rom rom).load_font font FONT_SIZE)
  | cycle {s t : Chip8} : Reachable s → s.run_cycle = some (.ok t) → Reachable t
  | timers {s : Chip8} : Reachable s → Reachable s.update_timers
  | keys {s : Chip8} (ks : Nat → Bool) : Reachable s → Reachable (s.set_keys ks)

/-! ## Test fixtures and general lemmas -/

/-- A key map with no key held. -/
def noKeys : Nat → Bool := fun _ => false

/-- A concrete display handle: primary color 1, secondary color 0, no key
held, every cell at the secondary color. -/
def ioDark : Chip8Io :=
  { primary_color := 1
    secondary_color := 0
    keys_pressed := noKeys
    display_buffer := fun _ _ => 0 }

/-- A freshly constructed machine over `ioDark` (concrete inputs for the
witnesses start from here). -/
def testState : Chip8 := Chip8.new ioDark 1 0 []

/-- Masking with a shifted mask commutes with the shift. -/
theorem and_shifted_mask (r m k : Nat) : (r &&& (m <<< k)) >>> k = (r >>> k) &&& m := by
  apply Nat.eq_of_testBit_eq
  intro j
  simp [Nat.testBit_shiftRight, Nat.testBit_and, Nat.testBit_shiftLeft]

/-- Masking with a low-bit mask is reduction modulo a power of two. -/
theorem and_mask_mod (r k : Nat) : r &&& (2 ^ k - 1) = r % 2 ^ k :=
  Nat.and_pow_two_sub_one_eq_mod r k

/-! ## C7: the decoder is total and extracts the documented bit fields -/

/-- C7: `Opcode.new` (the decoder) is a total function — it is defined on
every raw word, so on all 2^16 `u16` values — and on each such word the
extracted fields are the documented bit slices: `op_type` = bits 15–12,
`x` = bits 11–8, `y` = bits 7–4, `n` = bits 3–0, `nn` = bits 7–0,
`nnn` = bits 11–0. -/
theorem decode_total_and_fields (raw : Nat) (h : raw < 65536) :
    (Opcode.new raw).op_type = raw / 4096 ∧
    (Opcode.new raw).x = raw / 256 % 16 ∧
    (Opcode.new raw).y = raw / 16 % 16 ∧
    (Opcode.new raw).n = raw % 16 ∧
    (Opcode.new raw).get_nn = raw % 256 ∧
    (Opcode.new raw).get_nnn = raw % 4096 := by
  have hF : ∀ r : Nat, r &&& 0xF = r % 16 := by
    intro r
    have h5 := and_mask_mod r 4
    norm_num at h5
    exact h5
  refine ⟨?_, ?_, ?_, ?_, ?_, ?_⟩
  · show (raw &&& 0xF000) >>> 12 = raw / 4096
    have h1 : (0xF000 : Nat) = 0xF <<< 12 := by decide
    have h3 : raw >>> 12 = raw / 4096 := by rw [Nat.shiftRight_eq_div_pow]
    rw [h1, and_shifted_mask, h3, hF, Nat.mod_eq_of_lt (by omega)]
  · show (raw &&& 0x0F00) >>> 8 = raw / 256 % 16
    have h1 : (0x0F00 : Nat) = 0xF <<< 8 := by decide
    have h3 : raw >>> 8 = raw / 256 := by rw [Nat.shiftRight_eq_div_pow]
    rw [h1, and_shifted_mask, h3, hF]
  · show (raw &&& 0x00F0) >>> 4 = raw / 16 % 16
    have h1 : (0x00F0 : Nat) = 0xF <<< 4 := by decide
    have h3 : raw >>> 4 = raw / 16 := by rw [Nat.shiftRight_eq_div_pow]
    rw [h1, and_shifted_mask, h3, hF]
  · exact hF raw
  · have h5 := and_mask_mod raw 8
    norm_num at h5
    exact h5
  · have h5 := and_mask_mod raw 12
    norm_num at h5
    exact h5

/-- C7 witness: the fields at the concrete word 0xA2F0, by the theorem, and
the spec's example values for that word. -/
theorem decode_total_and_fields_witness :
    ((Opcode.new 0xA2F0).op_type = 0xA2F0 / 4096 ∧
     (Opcode.new 0xA2F0).x = 0xA2F0 / 256 % 16 ∧
     (Opcode.new 0xA2F0).y = 0xA2F0 / 16 % 16 ∧
     (Opcode.new 0xA2F0).n = 0xA2F0 % 16 ∧
     (Opcode.new 0xA2F0).get_nn = 0xA2F0 % 256 ∧
     (Opcode.new 0xA2F0).get_nnn = 0xA2F0 % 4096) ∧
    ((Opcode.new 0xA2F0).op_type = 0xA ∧ (Opcode.new 0xA2F0).x = 0x2 ∧
     (Opcode.new 0xA2F0).y = 0xF ∧ (Opcode.new 0xA2F0).n = 0x0 ∧
     (Opcode.new 0xA2F0).get_nn = 0xF0 ∧ (Opcode.new 0xA2F0).get_nnn = 0x2F0) :=
  ⟨decode_total_and_fields 0xA2F0 (by decide), by decide⟩

/-! ## C8: timer decay -/

/-- One call to `update_timers` takes `delay` to `delay - 1` (floored). -/
theorem update_timers_delay (s : Chip8) :
    s.update_timers.delay_timer = s.delay_timer - 1 := by
  unfold Chip8.update_timers
  by_cases h : 0 < s.delay_timer <;> by_cases h2 : 0 < s.sound_timer <;>
    simp [h, h2] <;> omega

/-- One call to `update_timers` takes `sound` to `sound - 1` (floored). -/
theorem update_timers_sound (s : Chip8) :
    s.update_timers.sound_timer = s.sound_timer - 1 := by
  unfold Chip8.update_timers
  by_cases h : 0 < s.delay_timer <;> by_cases h2 : 0 < s.sound_timer <;>
    simp [h, h2] <;> omega

/-- `k` calls to `update_timers` take `delay` to `delay - k` (floored). -/
theorem update_timers_iterate_delay (k : Nat) (s : Chip8) :
    (Chip8.update_timers^[k] s).delay_timer = s.delay_timer - k := by
  induction k generalizing s with
  | zero => simp
  | succ k ih =>
    rw [Function.iterate_succ_apply, ih, update_timers_delay]
    omega

/-- C8: one `update_timers` call decrements each of `delay` and `sound` by
exactly 1 when positive and leaves it at 0 when it is 0 (never negative);
hence `delay = 0` stays 0, and from `delay = 3` nine successive calls
reach `delay = 0`. -/
theorem update_timers_floor_decay (s : Chip8) :
    (s.delay_timer = 0 → s.update_timers.delay_timer = 0) ∧
    (0 < s.delay_timer → s.update_timers.delay_timer = s.delay_timer - 1) ∧
    (s.sound_timer = 0 → s.update_timers.sound_timer = 0) ∧
    (0 < s.sound_timer → s.update_timers.sound_timer = s.sound_timer - 1) ∧
    (s.delay_timer = 3 → (Chip8.update_timers^[9] s).delay_timer = 0) := by
  have hd := update_timers_delay s
  have hs := update_timers_sound s
  have hi := update_timers_iterate_delay 9 s
  refine ⟨fun h => by omega, fun h => hd, fun h => by omega, fun h => hs, fun h => by omega⟩

/-! ## Outcome projections (used by concrete-input theorems) -/

/-- The machine state an `Outcome` carries (on both the ok and the error
path). -/
def Outcome.state : Outcome → Chip8
  | .ok t => t
  | .err t _ => t

/-- The error an `Outcome` carries, if any. -/
def Outcome.error : Outcome → Option Chip8Error
  | .ok _ => none
  | .err _ e => some e

/-- The `pc` after one cycle: `none` when the cycle panics. -/
def cycle_pc (s : Chip8) : Option Nat :=
  (s.run_cycle).map fun o => o.state.pc

/-- Register `r` after one cycle: `none` when the cycle panics. -/
def cycle_reg (s : Chip8) (r : Nat) : Option Nat :=
  (s.run_cycle).map fun o => o.state.registers r

/-- The error of one cycle: `none` when the cycle panics, `some none` on a
clean cycle. -/
def cycle_error (s : Chip8) : Option (Option Chip8Error) :=
  (s.run_cycle).map fun o => o.error

/-! ## C5: 8XY4 wrapping add with carry flag -/

/-- C5: executing the 8XY4 arm writes `(Vx + Vy) mod 256` to `Vx` and then
writes the carry flag to `VF`: 1 exactly when the unwrapped 8-bit sum
exceeds 0xFF, else 0 (so for `x = 0xF` the flag overwrites the sum). -/
theorem add_vy_carry (s : Chip8) (op : Opcode) (hn : op.n = 0x4)
    (hx : s.registers op.x < 256) (hy : s.registers op.y < 256) :
    ∃ t, s.exec_op_type8 op = .ok t ∧
      (∀ r, t.registers r =
        if r = 0xF then (if 0xFF < s.registers op.x + s.registers op.y then 1 else 0)
        else if r = op.x then (s.registers op.x + s.registers op.y) % 256
        else s.registers r) ∧
      t.pc = s.pc ∧ t.i = s.i ∧ t.stack = s.stack ∧ t.memory = s.memory ∧
      t.io = s.io := by
  unfold Chip8.exec_op_type8
  rw [hn]
  refine ⟨_, rfl, ?_, rfl, rfl, rfl, rfl, rfl⟩
  intro r
  simp only [Chip8.set_vf, Chip8.set_reg, wrapping_add8]
  split_ifs <;> first | rfl | omega

/-- A state with `V0 = 0xFF` and `V1 = 0x01`. -/
def addTestState : Chip8 := (testState.set_reg 0 0xFF).set_reg 1 0x01

/-- C5 witness: the theorem at the concrete instruction 8014 on
`V0 = 0xFF, V1 = 0x01`, plus the spec example `V0 = 0x00, VF = 1`. -/
theorem add_vy_carry_witness :
    (∃ t, addTestState.exec_op_type8 (Opcode.new 0x8014) = .ok t ∧
      (∀ r, t.registers r =
        if r = 0xF then
          (if 0xFF < addTestState.registers (Opcode.new 0x8014).x +
              addTestState.registers (Opcode.new 0x8014).y then 1 else 0)
        else if r = (Opcode.new 0x8014).x then
          (addTestState.registers (Opcode.new 0x8014).x +
           addTestState.registers (Opcode.new 0x8014).y) % 256
        else addTestState.registers r) ∧
      t.pc = addTestState.pc ∧ t.i = addTestState.i ∧
      t.stack = addTestState.stack ∧ t.memory = addTestState.memory ∧
      t.io = addTestState.io) ∧
    ((addTestState.exec_op_type8 (Opcode.new 0x8014)).state.registers 0 = 0x00 ∧
     (addTestState.exec_op_type8 (Opcode.new 0x8014)).state.registers 0xF = 1) :=
  ⟨add_vy_carry addTestState (Opcode.new 0x8014) (by decide) (by decide) (by decide),
   by decide⟩

/-! ## C6: FX1E index add, masked to 12 bits -/

/-- C6: executing the FX1E arm sets `I := (I + Vx) &&& 0xFFF`; it writes
`VF := 1` when the raw (unmasked) sum reaches 0x1000, and leaves every
register — `VF` included — at its prior value when the raw sum is below
0x1000. -/
theorem fx1e_masked_add (s : Chip8) (op : Opcode) (hnn : op.get_nn = 0x1E) :
    ∃ t, s.exec_op_type15 op = some (.ok t) ∧
      t.i = (s.i + s.registers op.x) &&& 0xFFF ∧
      (0x1000 ≤ s.i + s.registers op.x →
        ∀ r, t.registers r = if r = 0xF then 1 else s.registers r) ∧
      (s.i + s.registers op.x < 0x1000 →
        ∀ r, t.registers r = s.registers r) ∧
      t.pc = s.pc ∧ t.stack = s.stack ∧ t.memory = s.memory ∧ t.io = s.io := by
  unfold Chip8.exec_op_type15
  rw [hnn]
  by_cases hc : 0x1000 ≤ s.i + s.registers op.x
  · simp only [hc, if_true, if_pos]
    refine ⟨_, rfl, rfl, fun _ r => ?_, fun h => absurd hc (by omega), rfl, rfl, rfl, rfl⟩
    simp only [Chip8.set_vf, Chip8.set_reg]
  · simp only [hc, if_false, if_neg]
    refine ⟨_, rfl, rfl, fun h => h.elim, fun _ r => rfl, rfl, rfl, rfl, rfl⟩

/-- A state with `I = 0xFFE` and `V3 = 5`. -/
def fx1eTestState : Chip8 := { testState.set_reg 3 5 with i := 0xFFE }

/-- C6 witness: the theorem at the concrete instruction F31E on
`I = 0xFFE, V3 = 5` (raw sum 0x1003, so `I` wraps to 0x003 and `VF` is
set). -/
theorem fx1e_masked_add_witness :
    ∃ t, fx1eTestState.exec_op_type15 (Opcode.new 0xF31E) = some (.ok t) ∧
      t.i = (fx1eTestState.i + fx1eTestState.registers (Opcode.new 0xF31E).x) &&& 0xFFF ∧
      (0x1000 ≤ fx1eTestState.i + fx1eTestState.registers (Opcode.new 0xF31E).x →
        ∀ r, t.registers r = if r = 0xF then 1 else fx1eTestState.registers r) ∧
      (fx1eTestState.i + fx1eTestState.registers (Opcode.new 0xF31E).x < 0x1000 →
        ∀ r, t.registers r = fx1eTestState.registers r) ∧
      t.pc = fx1eTestState.pc ∧ t.stack = fx1eTestState.stack ∧
      t.memory = fx1eTestState.memory ∧ t.io = fx1eTestState.io :=
  fx1e_masked_add fx1eTestState (Opcode.new 0xF31E) (by decide)

/-! ## C10: in the 0x8 family, the flag is computed from pre-operation
values and written to VF after the result -/

/-- The flag value the 0x8-family arms 0x4/0x5/0x6/0x7/0xE compute, as a
function of the pre-operation register values (the `vf_value` expressions
of `exec_op_type8`, read off the state before any write). -/
def exec8_flag (s : Chip8) (op : Opcode) : Nat :=
  match op.n with
  | 0x4 =>
    if wrapping_add8 (s.registers op.x) (s.registers op.y) < s.registers op.x
    then 1 else 0
  | 0x5 => if s.registers op.y ≤ s.registers op.x then 1 else 0
  | 0x6 => s.registers op.x &&& 0x01
  | 0x7 => if s.registers op.x ≤ s.registers op.y then 1 else 0
  | 0xE => (s.registers op.x &&& 0x80) >>> 7
  | _ => 0

/-- The arithmetic result the 0x8-family arms 0x4/0x5/0x6/0x7/0xE write to
`Vx`, as a function of the pre-operation register values. -/
def exec8_result (s : Chip8) (op : Opcode) : Nat :=
  match op.n with
  | 0x4 => wrapping_add8 (s.registers op.x) (s.registers op.y)
  | 0x5 => wrapping_sub8 (s.registers op.x) (s.registers op.y)
  | 0x6 => s.registers op.x >>> 1
  | 0x7 => wrapping_sub8 (s.registers op.y) (s.registers op.x)
  | 0xE => shl8 (s.registers op.x)
  | _ => 0

/-- C10: every flag-producing 0x8-family arm (selectors 0x4, 0x5, 0x6,
0x7, 0xE) computes its flag from the pre-operation register values and
writes it to `VF` after the result is written to `Vx`: the final `VF` is
the flag, `Vx` holds the result when `x ≠ 0xF`, and when `x = 0xF` the
flag overwrites the arithmetic result. -/
theorem exec8_flag_after_result (s : Chip8) (op : Opcode)
    (h : op.n = 0x4 ∨ op.n = 0x5 ∨ op.n = 0x6 ∨ op.n = 0x7 ∨ op.n = 0xE) :
    ∃ t, s.exec_op_type8 op = .ok t ∧
      t.registers 0xF = exec8_flag s op ∧
      (op.x ≠ 0xF → t.registers op.x = exec8_result s op) ∧
      (op.x = 0xF → t.registers op.x = exec8_flag s op) ∧
      (∀ r, r ≠ 0xF → r ≠ op.x → t.registers r = s.registers r) := by
  unfold Chip8.exec_op_type8 exec8_flag exec8_result
  rcases h with hn | hn | hn | hn | hn <;> rw [hn] <;>
    refine ⟨_, rfl, ?_, ?_, ?_, ?_⟩ <;>
    simp only [Chip8.set_vf, Chip8.set_reg] <;>
    intros <;> simp_all

/-- A state with `VD = 0x90` and `VE = 0x90`. -/
def aluTestState : Chip8 := (testState.set_reg 0xD 0x90).set_reg 0xE 0x90

/-- C10 witness: the theorem at the concrete instruction 8DE4 (add with
carry into `VF`) on `VD = VE = 0x90`. -/
theorem exec8_flag_after_result_witness :
    ∃ t, aluTestState.exec_op_type8 (Opcode.new 0x8DE4) = .ok t ∧
      t.registers 0xF = exec8_flag aluTestState (Opcode.new 0x8DE4) ∧
      ((Opcode.new 0x8DE4).x ≠ 0xF →
        t.registers (Opcode.new 0x8DE4).x = exec8_result aluTestState (Opcode.new 0x8DE4)) ∧
      ((Opcode.new 0x8DE4).x = 0xF →
        t.registers (Opcode.new 0x8DE4).x = exec8_flag aluTestState (Opcode.new 0x8DE4)) ∧
      (∀ r, r ≠ 0xF → r ≠ (Opcode.new 0x8DE4).x →
        t.registers r = aluTestState.registers r) :=
  exec8_flag_after_result aluTestState (Opcode.new 0x8DE4) (Or.inl (by decide))

/-! ## C1: FX0A key wait (the rollback condition in the source is
inverted: it rolls the PC back when a key IS held) -/

/-- A booted machine whose ROM is the single instruction F00A. -/
def keyWaitState : Chip8 := (Chip8.new ioDark 1 0 []).load_rom [0xF0, 0x0A]

/-- The same machine with key 5 held. -/
def keyWaitKeyHeld : Chip8 := keyWaitState.set_keys fun k => k == 5

/-- C1 (behavior of the code at the failing inputs): executing F00A with
no key held leaves the PC at the post-fetch 0x202 — the instruction is NOT
re-executed — and stores nothing; executing it with key 5 held stores 5 in
`V0` and rolls the PC back to 0x200.  The claim (and spec §4.3) asks for
exactly the opposite PC behavior in both cases. -/
theorem fx0a_rollback_condition_inverted :
    (cycle_pc keyWaitState = some 0x202 ∧ cycle_reg keyWaitState 0 = some 0) ∧
    (cycle_pc keyWaitKeyHeld = some 0x200 ∧ cycle_reg keyWaitKeyHeld 0 = some 5) := by
  decide

/-! ## C3: 00EE on an empty stack -/

/-- C3 (amended): executing 00EE with an empty call stack returns
`StackUnderflow`, and the handler itself does not mutate the PC: the state
carried by the error is exactly `s.skip_pc`, the fetched state — so the PC
after the failed cycle is the pre-cycle PC advanced by 2 (the fetch-step
pre-advance of §4.2), and registers, stack, memory, index register and
display are untouched. -/
theorem ret_empty_stack_underflow (s : Chip8) (hpc : s.pc + 1 < MEMORY_SIZE)
    (hh : s.memory s.pc = 0x00) (hl : s.memory (s.pc + 1) = 0xEE)
    (hstack : s.stack = []) :
    s.run_cycle = some (.err s.skip_pc (.StackUnderflow (Opcode.new 0x00EE))) ∧
    s.skip_pc.pc = s.pc + 2 ∧ s.skip_pc.registers = s.registers ∧
    s.skip_pc.stack = s.stack ∧ s.skip_pc.memory = s.memory ∧
    s.skip_pc.i = s.i ∧ s.skip_pc.io = s.io := by
  refine ⟨?_, rfl, rfl, rfl, rfl, rfl, rfl⟩
  have h0 : s.skip_pc.exec_op_type0 (Opcode.new 0x00EE) =
      .err s.skip_pc (.StackUnderflow (Opcode.new 0x00EE)) := by
    unfold Chip8.exec_op_type0
    show (match s.stack with
          | [] => Outcome.err s.skip_pc (.StackUnderflow (Opcode.new 0x00EE))
          | p :: rest => Outcome.ok { s.skip_pc with pc := p, stack := rest }) = _
    rw [hstack]
  unfold Chip8.run_cycle
  simp only [Chip8.mem_read]
  rw [if_pos (show s.pc < MEMORY_SIZE by omega), if_pos hpc, hh, hl]
  show some (s.skip_pc.exec_op_type0 (Opcode.new 0x00EE)) = _
  rw [h0]

/-- A booted machine whose ROM is the single instruction 00EE (stack
empty). -/
def retUnderflowState : Chip8 := (Chip8.new ioDark 1 0 []).load_rom [0x00, 0xEE]

/-- C3 counterexample: on that machine the failed cycle does return
`StackUnderflow`, but the PC after the cycle is 0x202, not the pre-cycle
value 0x200 the claim asserts. -/
theorem ret_underflow_pc_advanced :
    cycle_error retUnderflowState = some (some (.StackUnderflow (Opcode.new 0x00EE))) ∧
    retUnderflowState.pc = 0x200 ∧
    cycle_pc retUnderflowState = some 0x202 ∧
    cycle_pc retUnderflowState ≠ some retUnderflowState.pc := by
  decide

/-- C3 witness: the amended theorem at the concrete 00EE machine. -/
theorem ret_empty_stack_underflow_witness :
    retUnderflowState.run_cycle =
      some (.err retUnderflowState.skip_pc (.StackUnderflow (Opcode.new 0x00EE))) ∧
    retUnderflowState.skip_pc.pc = retUnderflowState.pc + 2 ∧
    retUnderflowState.skip_pc.registers = retUnderflowState.registers ∧
    retUnderflowState.skip_pc.stack = retUnderflowState.stack ∧
    retUnderflowState.skip_pc.memory = retUnderflowState.memory ∧
    retUnderflowState.skip_pc.i = retUnderflowState.i ∧
    retUnderflowState.skip_pc.io = retUnderflowState.io :=
  ret_empty_stack_underflow retUnderflowState (by decide) (by decide) (by decide) rfl

/-! ## C9: FX55 store then FX65 load round-trips the registers -/

/-- An in-bounds `mem_write` succeeds, changes `memory` pointwise at the
written address only, and changes no other field. -/
theorem mem_write_spec (s : Chip8) (a v : Nat) (h : a < MEMORY_SIZE) :
    ∃ t, s.mem_write a v = some t ∧ t.i = s.i ∧ t.registers = s.registers ∧
      t.pc = s.pc ∧ t.stack = s.stack ∧ t.io = s.io ∧
      (∀ b, t.memory b = if b = a then v else s.memory b) := by
  unfold Chip8.mem_write
  rw [if_pos h]
  exact ⟨_, rfl, rfl, rfl, rfl, rfl, rfl, fun b => rfl⟩

/-- The FX55 loop writes `registers k` at address `i + k` for each listed
index, leaves every other address alone, and changes nothing but memory. -/
theorem store_regs_spec (ks : List Nat) (s : Chip8)
    (hks : ∀ k ∈ ks, s.i + k < MEMORY_SIZE) :
    ∃ t, s.store_regs ks = some t ∧
      t.i = s.i ∧ t.registers = s.registers ∧ t.pc = s.pc ∧
      t.stack = s.stack ∧ t.io = s.io ∧
      (∀ k ∈ ks, t.memory (s.i + k) = s.registers k) ∧
      (∀ a, (∀ k ∈ ks, a ≠ s.i + k) → t.memory a = s.memory a) := by
  induction ks generalizing s with
  | nil =>
    exact ⟨s, rfl, rfl, rfl, rfl, rfl, rfl, by simp, fun a _ => rfl⟩
  | cons k ks ih =>
    have hk : s.i + k < MEMORY_SIZE := hks k (List.mem_cons_self k ks)
    obtain ⟨s1, hw, h1i, h1r, h1p, h1stk, h1io, h1mem⟩ :=
      mem_write_spec s (s.i + k) (s.registers k) hk
    obtain ⟨t, ht, hti, htr, htp, htstk, htio, htmem, htframe⟩ :=
      ih s1 (fun k2 hk2 => by rw [h1i]; exact hks k2 (List.mem_cons_of_mem k hk2))
    refine ⟨t, ?_, by rw [hti, h1i], by rw [htr, h1r], by rw [htp, h1p],
      by rw [htstk, h1stk], by rw [htio, h1io], ?_, ?_⟩
    · show (match s.mem_write (s.i + k) (s.registers k) with
            | none => none
            | some t2 => t2.store_regs ks) = some t
      rw [hw]
      exact ht
    · intro k2 hk2
      rcases List.mem_cons.mp hk2 with hk2 | hk2
      · subst hk2
        by_cases hmem2 : k2 ∈ ks
        · have h3 := htmem k2 hmem2
          rw [h1i] at h3
          rw [h3, h1r]
        · have h3 := htframe (s.i + k2) (by
            intro k3 hk3 hcontra
            rw [h1i] at hcontra
            have : k2 = k3 := by omega
            exact hmem2 (this ▸ hk3))
          rw [h3, h1mem, if_pos rfl]
      · have h3 := htmem k2 hk2
        rw [h1i] at h3
        rw [h3, h1r]
    · intro a ha
      have h3 := htframe a (by
        intro k2 hk2 hcontra
        rw [h1i] at hcontra
        exact ha k2 (List.mem_cons_of_mem k hk2) hcontra)
      rw [h3, h1mem, if_neg (ha k (List.mem_cons_self k ks))]

/-- The FX65 loop loads `memory (i + k)` into register `k` for each listed
index, leaves every other register alone, and changes nothing but the
registers. -/
theorem load_regs_spec (ks : List Nat) (s : Chip8)
    (hks : ∀ k ∈ ks, s.i + k < MEMORY_SIZE) :
    ∃ u, s.load_regs ks = some u ∧
      u.i = s.i ∧ u.memory = s.memory ∧ u.pc = s.pc ∧
      u.stack = s.stack ∧ u.io = s.io ∧
      (∀ k ∈ ks, u.registers k = s.memory (s.i + k)) ∧
      (∀ r, (∀ k ∈ ks, r ≠ k) → u.registers r = s.registers r) := by
  induction ks generalizing s with
  | nil =>
    exact ⟨s, rfl, rfl, rfl, rfl, rfl, rfl, by simp, fun r _ => rfl⟩
  | cons k ks ih =>
    have hk : s.i + k < MEMORY_SIZE := hks k (List.mem_cons_self k ks)
    have hrd : s.mem_read (s.i + k) = some (s.memory (s.i + k)) := by
      unfold Chip8.mem_read
      rw [if_pos hk]
    obtain ⟨u, hu, hui, humem, hup, hustk, huio, hureg, huframe⟩ :=
      ih (s.set_reg k (s.memory (s.i + k)))
        (fun k2 hk2 => hks k2 (List.mem_cons_of_mem k hk2))
    refine ⟨u, ?_, hui, humem, hup, hustk, huio, ?_, ?_⟩
    · show (match s.mem_read (s.i + k) with
            | none => none
            | some v => (s.set_reg k v).load_regs ks) = some u
      rw [hrd]
      exact hu
    · intro k2 hk2
      rcases List.mem_cons.mp hk2 with hk2 | hk2
      · subst hk2
        by_cases hmem2 : k2 ∈ ks
        · exact hureg k2 hmem2
        · have h3 := huframe k2 (fun k3 hk3 heq => hmem2 (heq ▸ hk3))
          rw [h3]
          simp [Chip8.set_reg]
      · exact hureg k2 hk2
    · intro r hr
      have h3 := huframe r (fun k2 hk2 => hr k2 (List.mem_cons_of_mem k hk2))
      rw [h3]
      simp [Chip8.set_reg, hr k (List.mem_cons_self k ks)]

/-- C9: executing the FX55 arm (store `V0..Vx` at `I..I+x`) and then the
FX65 arm (load `I..I+x` into `V0..Vx`) with `I` and `x` unchanged between
the two restores `V0..Vx` to their original values. -/
theorem store_load_roundtrip (s : Chip8) (op55 op65 : Opcode)
    (h55 : op55.get_nn = 0x55) (h65 : op65.get_nn = 0x65)
    (hx : op65.x = op55.x) (hbound : s.i + op55.x < MEMORY_SIZE) :
    ∃ t u, s.exec_op_type15 op55 = some (.ok t) ∧ t.i = s.i ∧
      t.exec_op_type15 op65 = some (.ok u) ∧
      (∀ k, k ≤ op55.x → u.registers k = s.registers k) := by
  have hks : ∀ k ∈ List.range (op55.x + 1), s.i + k < MEMORY_SIZE := by
    intro k hk
    have := List.mem_range.mp hk
    omega
  obtain ⟨t, ht, hti, htr, _, _, _, htmem, _⟩ :=
    store_regs_spec (List.range (op55.x + 1)) s hks
  have hks2 : ∀ k ∈ List.range (op65.x + 1), t.i + k < MEMORY_SIZE := by
    intro k hk
    have h4 := List.mem_range.mp hk
    rw [hti]
    rw [hx] at h4
    omega
  obtain ⟨u, hu, hui, humem, _, _, _, hureg, _⟩ :=
    load_regs_spec (List.range (op65.x + 1)) t hks2
  refine ⟨t, u, ?_, hti, ?_, ?_⟩
  · unfold Chip8.exec_op_type15
    rw [h55]
    show (match s.store_regs (List.range (op55.x + 1)) with
          | none => none
          | some t2 => some (Outcome.ok t2)) = some (.ok t)
    rw [ht]
  · unfold Chip8.exec_op_type15
    rw [h65]
    show (match t.load_regs (List.range (op65.x + 1)) with
          | none => none
          | some t2 => some (Outcome.ok t2)) = some (.ok u)
    rw [hu]
  · intro k hkx
    have h1 := hureg k (List.mem_range.mpr (by omega))
    rw [hti] at h1
    have h2 := htmem k (List.mem_range.mpr (by omega))
    rw [h1, h2]

/-- A state with `V0 = 0xAB`, `V1 = 0xCD` and `I = 0x300`. -/
def roundTripState : Chip8 :=
  { (testState.set_reg 0 0xAB).set_reg 1 0xCD with i := 0x300 }

/-- C9 witness: the round trip at the concrete instructions F255 / F265 on
`I = 0x300` (so `V0, V1, V2` are stored at 0x300..0x302 and read back). -/
theorem store_load_roundtrip_witness :
    ∃ t u, roundTripState.exec_op_type15 (Opcode.new 0xF255) = some (.ok t) ∧
      t.i = roundTripState.i ∧
      t.exec_op_type15 (Opcode.new 0xF265) = some (.ok u) ∧
      (∀ k, k ≤ (Opcode.new 0xF255).x → u.registers k = roundTripState.registers k) :=
  store_load_roundtrip roundTripState (Opcode.new 0xF255) (Opcode.new 0xF265)
    (by decide) (by decide) (by decide) (by decide)

/-! ## C2: a reachable state on which `run_cycle` accesses memory out of
0x000–0xFFF (the FX33/FX55/FX65 index computations are not masked, and
the fetch address is not bounded) -/

/-- The 80-byte `FONT` table of main.rs (glyphs 0..F, 5 bytes each). -/
def stdFont : List Nat :=
  [0xF0, 0x90, 0x90, 0x90, 0xF0,
   0x20, 0x60, 0x20, 0x20, 0x70,
   0xF0, 0x10, 0xF0, 0x80, 0xF0,
   0xF0, 0x10, 0xF0, 0x10, 0xF0,
   0x90, 0x90, 0xF0, 0x10, 0x10,
   0xF0, 0x80, 0xF0, 0x10, 0xF0,
   0xF0, 0x80, 0xF0, 0x90, 0xF0,
   0xF0, 0x10, 0x20, 0x40, 0x40,
   0xF0, 0x90, 0xF0, 0x90, 0xF0,
   0xF0, 0x90, 0xF0, 0x10, 0xF0,
   0xF0, 0x90, 0xF0, 0x90, 0x90,
   0xE0, 0x90, 0xE0, 0x90, 0xE0,
   0xF0, 0x80, 0x80, 0x80, 0xF0,
   0xE0, 0x90, 0x90, 0x90, 0xE0,
   0xF0, 0x80, 0xF0, 0x80, 0xF0,
   0xF0, 0x80, 0xF0, 0x80, 0x80]

/-- A machine booted as main.rs boots it, with the two-instruction ROM
`AFFE F133`: set `I := 0xFFE`, then store the BCD digits of `V1` at
`I..I+2` — the last of those addresses is 0x1000, outside memory. -/
def bootBadRom : Chip8 :=
  ((Chip8.new ioDark 1 0 []).load_rom [0xAF, 0xFE, 0xF1, 0x33]).load_font stdFont FONT_SIZE

/-- The booted machine after its first cycle: `I = 0xFFE`, `PC = 0x202`,
about to execute F133. -/
def badRomStep1 : Chip8 := { bootBadRom with pc := 0x202, i := 0xFFE }

/-- C2 (behavior of the code at the failing input): a reachable state —
boot with ROM `AFFE F133` and run one clean cycle — on which the next
`run_cycle` attempts a memory write at address 0x1000 (the `none` of the
embedding is exactly the Rust out-of-bounds index panic), refuting the
claim that every reachable cycle stays inside 0x000–0xFFF. -/
theorem run_cycle_reachable_oob :
    Reachable badRomStep1 ∧ badRomStep1.run_cycle = none :=
  ⟨Reachable.cycle
    (Reachable.boot ioDark 1 0 [] stdFont [0xAF, 0xFE, 0xF1, 0x33] rfl (by decide))
    rfl,
   rfl⟩

/-! ## C4: the DXYN sprite draw -/

/-- The sprite bit of sprite row `i`, column `j` (§4.4):
`(memory[I + i] >> (7 − j)) & 1`. -/
def sprite_bit (s : Chip8) (i j : Nat) : Nat :=
  (s.memory (s.i + i) >>> (7 - j)) &&& 1

/-- The code's form of the sprite bit — mask then shift — is the claim's
shift-then-mask form. -/
theorem sprite_bit_code_form (s : Chip8) (i j : Nat) :
    (s.memory (s.i + i) &&& (1 <<< (7 - j))) >>> (7 - j) = sprite_bit s i j :=
  and_shifted_mask (s.memory (s.i + i)) 1 (7 - j)

/-- Unfolding of one `draw_cols` step. -/
theorem draw_cols_cons (s : Chip8) (x_c new_y row_i j : Nat) (js : List Nat) :
    s.draw_cols x_c new_y row_i (j :: js) =
      if DISPLAY_WIDTH ≤ x_c + j then s.draw_cols x_c new_y row_i js
      else
        match s.mem_read (s.i + row_i) with
        | none => none
        | some byte =>
          ((if (byte &&& (1 <<< (7 - j))) >>> (7 - j) = 1 then
              if s.io.display_buffer new_y (x_c + j) = s.primary_color then
                (s.set_vf 1).write_io_pixel new_y (x_c + j) s.secondary_color
              else
                s.write_io_pixel new_y (x_c + j) s.primary_color
            else s) : Chip8).draw_cols x_c new_y row_i js := rfl

open Classical in
/-- One sprite row (`draw_cols` over a duplicate-free column list): the
display changes exactly at the in-bounds set-bit columns of display row
`new_y`, by the XOR-write rule; `VF` becomes 1 exactly when such a column
hits a primary cell (else it keeps its value); nothing else changes. -/
theorem draw_cols_spec (js : List Nat) (s : Chip8) (x_c new_y row_i : Nat)
    (hnd : js.Nodup) (hmem : s.i + row_i < MEMORY_SIZE) :
    ∃ t, s.draw_cols x_c new_y row_i js = some t ∧
      t.i = s.i ∧ t.memory = s.memory ∧ t.pc = s.pc ∧ t.stack = s.stack ∧
      t.primary_color = s.primary_color ∧
      t.secondary_color = s.secondary_color ∧
      (∀ r, r ≠ 0xF → t.registers r = s.registers r) ∧
      (t.registers 0xF =
        if ∃ j2 ∈ js, x_c + j2 < DISPLAY_WIDTH ∧ sprite_bit s row_i j2 = 1 ∧
            s.io.display_buffer new_y (x_c + j2) = s.primary_color
         then 1 else s.registers 0xF) ∧
      (∀ r c, t.io.display_buffer r c =
        if r = new_y ∧ ∃ j2 ∈ js, c = x_c + j2 ∧ c < DISPLAY_WIDTH ∧
            sprite_bit s row_i j2 = 1
         then (if s.io.display_buffer r c = s.primary_color
               then s.secondary_color else s.primary_color)
         else s.io.display_buffer r c) := by
  induction js generalizing s with
  | nil =>
    refine ⟨s, rfl, rfl, rfl, rfl, rfl, rfl, rfl, fun r _ => rfl, ?_, ?_⟩
    · rw [if_neg]
      rintro ⟨j, hj, -⟩
      exact (List.not_mem_nil j) hj
    · intro r c
      rw [if_neg]
      rintro ⟨-, j, hj, -⟩
      exact (List.not_mem_nil j) hj
  | cons j js ih =>
    obtain ⟨hj_notin, hnd'⟩ := List.nodup_cons.mp hnd
    have hrd : s.mem_read (s.i + row_i) = some (s.memory (s.i + row_i)) := by
      unfold Chip8.mem_read
      rw [if_pos hmem]
    have hbitform := sprite_bit_code_form s row_i j
    by_cases hclip : DISPLAY_WIDTH ≤ x_c + j
    · -- the column is clipped: this j is a no-op
      obtain ⟨t, ht, hti, htm, htp, hts, htpc, htsc, htregs, htvf, htbuf⟩ :=
        ih s hnd' hmem
      refine ⟨t, ?_, hti, htm, htp, hts, htpc, htsc, htregs, ?_, ?_⟩
      · rw [draw_cols_cons, if_pos hclip]
        exact ht
      · rw [htvf]
        apply if_congr _ rfl rfl
        constructor
        · rintro ⟨j2, hj2, h1, h2, h3⟩
          exact ⟨j2, List.mem_cons_of_mem j hj2, h1, h2, h3⟩
        · rintro ⟨j2, hj2, h1, h2, h3⟩
          rcases List.mem_cons.mp hj2 with rfl | hj2m
          · omega
          · exact ⟨j2, hj2m, h1, h2, h3⟩
      · intro r c
        rw [htbuf r c]
        apply if_congr _ rfl rfl
        constructor
        · rintro ⟨hr, j2, hj2, h1, h2, h3⟩
          exact ⟨hr, j2, List.mem_cons_of_mem j hj2, h1, h2, h3⟩
        · rintro ⟨hr, j2, hj2, h1, h2, h3⟩
          rcases List.mem_cons.mp hj2 with rfl | hj2m
          · omega
          · exact ⟨hr, j2, hj2m, h1, h2, h3⟩
    · by_cases hbit : sprite_bit s row_i j = 1
      · by_cases hprev : s.io.display_buffer new_y (x_c + j) = s.primary_color
        · -- set bit on a primary cell: collision; write the secondary color
          obtain ⟨t, ht, hti, htm, htp, hts, htpc, htsc, htregs, htvf, htbuf⟩ :=
            ih ((s.set_vf 1).write_io_pixel new_y (x_c + j) s.secondary_color)
              hnd' hmem
          have hbit2 : ∀ j2 : Nat,
              sprite_bit ((s.set_vf 1).write_io_pixel new_y (x_c + j)
                s.secondary_color) row_i j2 = sprite_bit s row_i j2 :=
            fun j2 => rfl
          have hb2 : ∀ r2 c2 : Nat,
              ((s.set_vf 1).write_io_pixel new_y (x_c + j)
                s.secondary_color).io.display_buffer r2 c2 =
              if r2 = new_y ∧ c2 = x_c + j then s.secondary_color
              else s.io.display_buffer r2 c2 :=
            fun r2 c2 => rfl
          have hp2 : ((s.set_vf 1).write_io_pixel new_y (x_c + j)
              s.secondary_color).primary_color = s.primary_color := rfl
          have hsc2 : ((s.set_vf 1).write_io_pixel new_y (x_c + j)
              s.secondary_color).secondary_color = s.secondary_color := rfl
          have hr152 : ((s.set_vf 1).write_io_pixel new_y (x_c + j)
              s.secondary_color).registers 0xF = 1 := rfl
          simp only [hbit2, hb2, hp2, hsc2, hr152, eq_self_iff_true, true_and]
            at htvf htbuf
          refine ⟨t, ?_, hti, htm, htp, hts, htpc, htsc, ?_, ?_, ?_⟩
          · rw [draw_cols_cons, if_neg hclip, hrd]
            show ((if (s.memory (s.i + row_i) &&& (1 <<< (7 - j))) >>> (7 - j) = 1 then
                     if s.io.display_buffer new_y (x_c + j) = s.primary_color then
                       (s.set_vf 1).write_io_pixel new_y (x_c + j) s.secondary_color
                     else s.write_io_pixel new_y (x_c + j) s.primary_color
                   else s : Chip8).draw_cols x_c new_y row_i js) = some t
            rw [hbitform, if_pos hbit, if_pos hprev]
            exact ht
          · intro r hr
            rw [htregs r hr]
            show (if r = 0xF then (1 : Nat) else s.registers r) = s.registers r
            rw [if_neg hr]
          · have hvf1 : t.registers 0xF = 1 := by
              rw [htvf]
              split <;> rfl
            rw [hvf1]
            have hcond : ∃ j2 ∈ j :: js, x_c + j2 < DISPLAY_WIDTH ∧
                sprite_bit s row_i j2 = 1 ∧
                s.io.display_buffer new_y (x_c + j2) = s.primary_color :=
              ⟨j, List.mem_cons_self j js, by omega, hbit, hprev⟩
            rw [if_pos hcond]
          · intro r c
            have hcomp := htbuf r c
            by_cases hr : r = new_y
            · by_cases hcj : c = x_c + j
              · have hQ : ¬ (r = new_y ∧ ∃ j2 ∈ js, c = x_c + j2 ∧
                    c < DISPLAY_WIDTH ∧ sprite_bit s row_i j2 = 1) := by
                  rintro ⟨-, j3, hj3, hc3, -, -⟩
                  have h5 : j = j3 := by omega
                  exact hj_notin (h5 ▸ hj3)
                have hT : r = new_y ∧ ∃ j2 ∈ j :: js, c = x_c + j2 ∧
                    c < DISPLAY_WIDTH ∧ sprite_bit s row_i j2 = 1 :=
                  ⟨hr, j, List.mem_cons_self j js, hcj, by omega, hbit⟩
                have hpc : s.io.display_buffer r c = s.primary_color := by
                  rw [hr, hcj]
                  exact hprev
                rw [hcomp, if_neg hQ, if_pos ⟨hr, hcj⟩, if_pos hT, if_pos hpc]
              · have hne : ¬ (r = new_y ∧ c = x_c + j) := fun h => hcj h.2
                by_cases hEx : ∃ j2 ∈ js, c = x_c + j2 ∧ c < DISPLAY_WIDTH ∧
                    sprite_bit s row_i j2 = 1
                · obtain ⟨j2, hj2, hc2, hcw2, hbb2⟩ := hEx
                  have hih : r = new_y ∧ ∃ j2 ∈ js, c = x_c + j2 ∧
                      c < DISPLAY_WIDTH ∧ sprite_bit s row_i j2 = 1 :=
                    ⟨hr, j2, hj2, hc2, hcw2, hbb2⟩
                  have hT : r = new_y ∧ ∃ j2 ∈ j :: js, c = x_c + j2 ∧
                      c < DISPLAY_WIDTH ∧ sprite_bit s row_i j2 = 1 :=
                    ⟨hr, j2, List.mem_cons_of_mem j hj2, hc2, hcw2, hbb2⟩
                  rw [hcomp, if_pos hih, if_neg hne, if_pos hT]
                · have hihn : ¬ (r = new_y ∧ ∃ j2 ∈ js, c = x_c + j2 ∧
                      c < DISPLAY_WIDTH ∧ sprite_bit s row_i j2 = 1) :=
                    fun h => hEx h.2
                  have hTn : ¬ (r = new_y ∧ ∃ j2 ∈ j :: js, c = x_c + j2 ∧
                      c < DISPLAY_WIDTH ∧ sprite_bit s row_i j2 = 1) := by
                    rintro ⟨-, j2, hj2, hc2, hcw2, hbb2⟩
                    rcases List.mem_cons.mp hj2 with rfl | hj2m
                    · exact hcj hc2
                    · exact hEx ⟨j2, hj2m, hc2, hcw2, hbb2⟩
                  rw [hcomp, if_neg hihn, if_neg hne, if_neg hTn]
            · have hne : ¬ (r = new_y ∧ c = x_c + j) := fun h => hr h.1
              have hihn : ¬ (r = new_y ∧ ∃ j2 ∈ js, c = x_c + j2 ∧
                  c < DISPLAY_WIDTH ∧ sprite_bit s row_i j2 = 1) :=
                fun h => hr h.1
              have hTn : ¬ (r = new_y ∧ ∃ j2 ∈ j :: js, c = x_c + j2 ∧
                  c < DISPLAY_WIDTH ∧ sprite_bit s row_i j2 = 1) :=
                fun h => hr h.1
              rw [hcomp, if_neg hihn, if_neg hne, if_neg hTn]
        · -- set bit on a non-primary cell: write the primary color, keep VF
          obtain ⟨t, ht, hti, htm, htp, hts, htpc, htsc, htregs, htvf, htbuf⟩ :=
            ih (s.write_io_pixel new_y (x_c + j) s.primary_color) hnd' hmem
          have hbit2 : ∀ j2 : Nat,
              sprite_bit (s.write_io_pixel new_y (x_c + j)
                s.primary_color) row_i j2 = sprite_bit s row_i j2 :=
            fun j2 => rfl
          have hb2 : ∀ r2 c2 : Nat,
              (s.write_io_pixel new_y (x_c + j)
                s.primary_color).io.display_buffer r2 c2 =
              if r2 = new_y ∧ c2 = x_c + j then s.primary_color
              else s.io.display_buffer r2 c2 :=
            fun r2 c2 => rfl
          have hp2 : (s.write_io_pixel new_y (x_c + j)
              s.primary_color).primary_color = s.primary_color := rfl
          have hsc2 : (s.write_io_pixel new_y (x_c + j)
              s.primary_color).secondary_color = s.secondary_color := rfl
          have hreg2 : ∀ r2 : Nat, (s.write_io_pixel new_y (x_c + j)
              s.primary_color).registers r2 = s.registers r2 :=
            fun r2 => rfl
          simp only [hbit2, hb2, hp2, hsc2, hreg2, eq_self_iff_true, true_and]
            at htvf htbuf
          refine ⟨t, ?_, hti, htm, htp, hts, htpc, htsc, htregs, ?_, ?_⟩
          · rw [draw_cols_cons, if_neg hclip, hrd]
            show ((if (s.memory (s.i + row_i) &&& (1 <<< (7 - j))) >>> (7 - j) = 1 then
                     if s.io.display_buffer new_y (x_c + j) = s.primary_color then
                       (s.set_vf 1).write_io_pixel new_y (x_c + j) s.secondary_color
                     else s.write_io_pixel new_y (x_c + j) s.primary_color
                   else s : Chip8).draw_cols x_c new_y row_i js) = some t
            rw [hbitform, if_pos hbit, if_neg hprev]
            exact ht
          · rw [htvf]
            apply if_congr _ rfl rfl
            constructor
            · rintro ⟨j2, hj2, h1, h2, h3⟩
              have hne : ¬ (x_c + j2 = x_c + j) := by
                intro hq
                have h5 : j2 = j := by omega
                exact hj_notin (h5 ▸ hj2)
              rw [if_neg hne] at h3
              exact ⟨j2, List.mem_cons_of_mem j hj2, h1, h2, h3⟩
            · rintro ⟨j2, hj2, h1, h2, h3⟩
              rcases List.mem_cons.mp hj2 with rfl | hj2m
              · exact absurd h3 hprev
              · refine ⟨j2, hj2m, h1, h2, ?_⟩
                have hne : ¬ (x_c + j2 = x_c + j) := by
                  intro hq
                  have h5 : j2 = j := by omega
                  exact hj_notin (h5 ▸ hj2m)
                rw [if_neg hne]
                exact h3
          · intro r c
            have hcomp := htbuf r c
            by_cases hr : r = new_y
            · by_cases hcj : c = x_c + j
              · have hQ : ¬ (r = new_y ∧ ∃ j2 ∈ js, c = x_c + j2 ∧
                    c < DISPLAY_WIDTH ∧ sprite_bit s row_i j2 = 1) := by
                  rintro ⟨-, j3, hj3, hc3, -, -⟩
                  have h5 : j = j3 := by omega
                  exact hj_notin (h5 ▸ hj3)
                have hT : r = new_y ∧ ∃ j2 ∈ j :: js, c = x_c + j2 ∧
                    c < DISPLAY_WIDTH ∧ sprite_bit s row_i j2 = 1 :=
                  ⟨hr, j, List.mem_cons_self j js, hcj, by omega, hbit⟩
                have hpcn : ¬ s.io.display_buffer r c = s.primary_color := by
                  rw [hr, hcj]
                  exact hprev
                rw [hcomp, if_neg hQ, if_pos ⟨hr, hcj⟩, if_pos hT, if_neg hpcn]
              · have hne : ¬ (r = new_y ∧ c = x_c + j) := fun h => hcj h.2
                by_cases hEx : ∃ j2 ∈ js, c = x_c + j2 ∧ c < DISPLAY_WIDTH ∧
                    sprite_bit s row_i j2 = 1
                · obtain ⟨j2, hj2, hc2, hcw2, hbb2⟩ := hEx
                  have hih : r = new_y ∧ ∃ j2 ∈ js, c = x_c + j2 ∧
                      c < DISPLAY_WIDTH ∧ sprite_bit s row_i j2 = 1 :=
                    ⟨hr, j2, hj2, hc2, hcw2, hbb2⟩
                  have hT : r = new_y ∧ ∃ j2 ∈ j :: js, c = x_c + j2 ∧
                      c < DISPLAY_WIDTH ∧ sprite_bit s row_i j2 = 1 :=
                    ⟨hr, j2, List.mem_cons_of_mem j hj2, hc2, hcw2, hbb2⟩
                  rw [hcomp, if_pos hih, if_neg hne, if_pos hT]
                · have hihn : ¬ (r = new_y ∧ ∃ j2 ∈ js, c = x_c + j2 ∧
                      c < DISPLAY_WIDTH ∧ sprite_bit s row_i j2 = 1) :=
                    fun h => hEx h.2
                  have hTn : ¬ (r = new_y ∧ ∃ j2 ∈ j :: js, c = x_c + j2 ∧
                      c < DISPLAY_WIDTH ∧ sprite_bit s row_i j2 = 1) := by
                    rintro ⟨-, j2, hj2, hc2, hcw2, hbb2⟩
                    rcases List.mem_cons.mp hj2 with rfl | hj2m
                    · exact hcj hc2
                    · exact hEx ⟨j2, hj2m, hc2, hcw2, hbb2⟩
                  rw [hcomp, if_neg hihn, if_neg hne, if_neg hTn]
            · have hne : ¬ (r = new_y ∧ c = x_c + j) := fun h => hr h.1
              have hihn : ¬ (r = new_y ∧ ∃ j2 ∈ js, c = x_c + j2 ∧
                  c < DISPLAY_WIDTH ∧ sprite_bit s row_i j2 = 1) :=
                fun h => hr h.1
              have hTn : ¬ (r = new_y ∧ ∃ j2 ∈ j :: js, c = x_c + j2 ∧
                  c < DISPLAY_WIDTH ∧ sprite_bit s row_i j2 = 1) :=
                fun h => hr h.1
              rw [hcomp, if_neg hihn, if_neg hne, if_neg hTn]
      · -- clear bit: this column writes nothing
        obtain ⟨t, ht, hti, htm, htp, hts, htpc, htsc, htregs, htvf, htbuf⟩ :=
          ih s hnd' hmem
        refine ⟨t, ?_, hti, htm, htp, hts, htpc, htsc, htregs, ?_, ?_⟩
        · rw [draw_cols_cons, if_neg hclip, hrd]
          show ((if (s.memory (s.i + row_i) &&& (1 <<< (7 - j))) >>> (7 - j) = 1 then
                   if s.io.display_buffer new_y (x_c + j) = s.primary_color then
                     (s.set_vf 1).write_io_pixel new_y (x_c + j) s.secondary_color
                   else s.write_io_pixel new_y (x_c + j) s.primary_color
                 else s : Chip8).draw_cols x_c new_y row_i js) = some t
          rw [hbitform, if_neg hbit]
          exact ht
        · rw [htvf]
          apply if_congr _ rfl rfl
          constructor
          · rintro ⟨j2, hj2, h1, h2, h3⟩
            exact ⟨j2, List.mem_cons_of_mem j hj2, h1, h2, h3⟩
          · rintro ⟨j2, hj2, h1, h2, h3⟩
            rcases List.mem_cons.mp hj2 with rfl | hj2m
            · exact absurd h2 hbit
            · exact ⟨j2, hj2m, h1, h2, h3⟩
        · intro r c
          rw [htbuf r c]
          apply if_congr _ rfl rfl
          constructor
          · rintro ⟨hr, j2, hj2, h1, h2, h3⟩
            exact ⟨hr, j2, List.mem_cons_of_mem j hj2, h1, h2, h3⟩
          · rintro ⟨hr, j2, hj2, h1, h2, h3⟩
            rcases List.mem_cons.mp hj2 with rfl | hj2m
            · exact absurd h3 hbit
            · exact ⟨hr, j2, hj2m, h1, h2, h3⟩

/-- Congruence for `ite` on propositions, insensitive to which
`Decidable` instances the two sides carry. -/
theorem ite_prop_congr {α : Sort _} {P Q : Prop} {dp : Decidable P}
    {dq : Decidable Q} (h : P ↔ Q) (a b : α) :
    (@ite _ P dp a b) = @ite _ Q dq a b := by
  by_cases hq : Q
  · rw [if_pos (h.mpr hq), if_pos hq]
  · rw [if_neg (fun hp => hq (h.mp hp)), if_neg hq]

/-- Unfolding of one `draw_rows` step. -/
theorem draw_rows_cons (s : Chip8) (x_c y_c i : Nat) (is : List Nat) :
    s.draw_rows x_c y_c (i :: is) =
      if DISPLAY_HEIGHT ≤ y_c + i then s.draw_rows x_c y_c is
      else
        match s.draw_cols x_c (y_c + i) i (List.range 8) with
        | none => none
        | some t => t.draw_rows x_c y_c is := rfl

open Classical in
/-- The full sprite loop (`draw_rows` over a duplicate-free row list): the
display changes exactly at the in-bounds set-bit sprite pixels, by the
XOR-write rule; `VF` becomes 1 exactly when some such pixel hits a primary
cell; rows past the bottom edge and columns past the right edge are
skipped; nothing else changes. -/
theorem draw_rows_spec (is : List Nat) (s : Chip8) (x_c y_c : Nat)
    (hnd : is.Nodup)
    (hmem : ∀ i ∈ is, y_c + i < DISPLAY_HEIGHT → s.i + i < MEMORY_SIZE) :
    ∃ t, s.draw_rows x_c y_c is = some t ∧
      t.i = s.i ∧ t.memory = s.memory ∧ t.pc = s.pc ∧ t.stack = s.stack ∧
      t.primary_color = s.primary_color ∧
      t.secondary_color = s.secondary_color ∧
      (∀ r, r ≠ 0xF → t.registers r = s.registers r) ∧
      (t.registers 0xF =
        if ∃ i2 ∈ is, y_c + i2 < DISPLAY_HEIGHT ∧ ∃ j2, j2 < 8 ∧
            x_c + j2 < DISPLAY_WIDTH ∧ sprite_bit s i2 j2 = 1 ∧
            s.io.display_buffer (y_c + i2) (x_c + j2) = s.primary_color
         then 1 else s.registers 0xF) ∧
      (∀ r c, t.io.display_buffer r c =
        if ∃ i2 ∈ is, r = y_c + i2 ∧ r < DISPLAY_HEIGHT ∧ ∃ j2, j2 < 8 ∧
            c = x_c + j2 ∧ c < DISPLAY_WIDTH ∧ sprite_bit s i2 j2 = 1
         then (if s.io.display_buffer r c = s.primary_color
               then s.secondary_color else s.primary_color)
         else s.io.display_buffer r c) := by
  induction is generalizing s with
  | nil =>
    refine ⟨s, rfl, rfl, rfl, rfl, rfl, rfl, rfl, fun r _ => rfl, ?_, ?_⟩
    · rw [if_neg]
      rintro ⟨i, hi, -⟩
      exact (List.not_mem_nil i) hi
    · intro r c
      rw [if_neg]
      rintro ⟨i, hi, -⟩
      exact (List.not_mem_nil i) hi
  | cons i is ih =>
    obtain ⟨hi_notin, hnd'⟩ := List.nodup_cons.mp hnd
    by_cases hclipY : DISPLAY_HEIGHT ≤ y_c + i
    · -- the row is clipped: this i is a no-op
      obtain ⟨t, ht, hti, htm, htp, hts, htpc, htsc, htregs, htvf, htbuf⟩ :=
        ih s hnd' (fun i2 hi2 h => hmem i2 (List.mem_cons_of_mem i hi2) h)
      refine ⟨t, ?_, hti, htm, htp, hts, htpc, htsc, htregs, ?_, ?_⟩
      · rw [draw_rows_cons, if_pos hclipY]
        exact ht
      · rw [htvf]
        refine ite_prop_congr ?_ _ _
        constructor
        · rintro ⟨i2, hi2, h1, h2⟩
          exact ⟨i2, List.mem_cons_of_mem i hi2, h1, h2⟩
        · rintro ⟨i2, hi2, h1, h2⟩
          rcases List.mem_cons.mp hi2 with rfl | hi2m
          · omega
          · exact ⟨i2, hi2m, h1, h2⟩
      · intro r c
        rw [htbuf r c]
        refine ite_prop_congr ?_ _ _
        constructor
        · rintro ⟨i2, hi2, h1, h2, h3⟩
          exact ⟨i2, List.mem_cons_of_mem i hi2, h1, h2, h3⟩
        · rintro ⟨i2, hi2, h1, h2, h3⟩
          rcases List.mem_cons.mp hi2 with rfl | hi2m
          · omega
          · exact ⟨i2, hi2m, h1, h2, h3⟩
    · -- this row is drawn, then the remaining rows
      have hry : y_c + i < DISPLAY_HEIGHT := by omega
      have hmemrow : s.i + i < MEMORY_SIZE :=
        hmem i (List.mem_cons_self i is) hry
      obtain ⟨t1, ht1, ht1i, ht1m, ht1p, ht1s, ht1pc, ht1sc, ht1regs,
          ht1vf, ht1buf⟩ :=
        draw_cols_spec (List.range 8) s x_c (y_c + i) i (List.nodup_range 8)
          hmemrow
      have hbitc : ∀ i2 j2 : Nat, sprite_bit t1 i2 j2 = sprite_bit s i2 j2 := by
        intro i2 j2
        unfold sprite_bit
        rw [ht1m, ht1i]
      obtain ⟨t, ht, hti, htm, htp, hts, htpc, htsc, htregs, htvf, htbuf⟩ :=
        ih t1 hnd' (fun i2 hi2 h => by
          rw [ht1i]
          exact hmem i2 (List.mem_cons_of_mem i hi2) h)
      simp only [hbitc, ht1pc, ht1sc] at htvf htbuf
      have hbufrow : ∀ i2 ∈ is, ∀ c2 : Nat,
          t1.io.display_buffer (y_c + i2) c2 = s.io.display_buffer (y_c + i2) c2 := by
        intro i2 hi2 c2
        rw [ht1buf (y_c + i2) c2, if_neg]
        rintro ⟨hr2, -⟩
        have h5 : i2 = i := by omega
        exact hi_notin (h5 ▸ hi2)
      have hCiff : (∃ i2 ∈ is, y_c + i2 < DISPLAY_HEIGHT ∧ ∃ j2, j2 < 8 ∧
            x_c + j2 < DISPLAY_WIDTH ∧ sprite_bit s i2 j2 = 1 ∧
            t1.io.display_buffer (y_c + i2) (x_c + j2) = s.primary_color) ↔
          (∃ i2 ∈ is, y_c + i2 < DISPLAY_HEIGHT ∧ ∃ j2, j2 < 8 ∧
            x_c + j2 < DISPLAY_WIDTH ∧ sprite_bit s i2 j2 = 1 ∧
            s.io.display_buffer (y_c + i2) (x_c + j2) = s.primary_color) := by
        constructor
        · rintro ⟨i2, hi2, hh, j2, hj2, hw, hb, hbuf⟩
          rw [hbufrow i2 hi2] at hbuf
          exact ⟨i2, hi2, hh, j2, hj2, hw, hb, hbuf⟩
        · rintro ⟨i2, hi2, hh, j2, hj2, hw, hb, hbuf⟩
          rw [← hbufrow i2 hi2] at hbuf
          exact ⟨i2, hi2, hh, j2, hj2, hw, hb, hbuf⟩
      refine ⟨t, ?_, by rw [hti, ht1i], by rw [htm, ht1m], by rw [htp, ht1p],
        by rw [hts, ht1s], by rw [htpc, ht1pc], by rw [htsc, ht1sc], ?_, ?_, ?_⟩
      · rw [draw_rows_cons, if_neg hclipY, ht1]
        exact ht
      · intro r hr
        rw [htregs r hr, ht1regs r hr]
      · rw [htvf]
        by_cases hCis : ∃ i2 ∈ is, y_c + i2 < DISPLAY_HEIGHT ∧ ∃ j2, j2 < 8 ∧
            x_c + j2 < DISPLAY_WIDTH ∧ sprite_bit s i2 j2 = 1 ∧
            s.io.display_buffer (y_c + i2) (x_c + j2) = s.primary_color
        · rw [if_pos (hCiff.mpr hCis)]
          obtain ⟨i2, hi2, h1, h2⟩ := hCis
          rw [if_pos ⟨i2, List.mem_cons_of_mem i hi2, h1, h2⟩]
        · rw [if_neg (fun h => hCis (hCiff.mp h)), ht1vf]
          by_cases hCrow : ∃ j2 ∈ List.range 8, x_c + j2 < DISPLAY_WIDTH ∧
              sprite_bit s i j2 = 1 ∧
              s.io.display_buffer (y_c + i) (x_c + j2) = s.primary_color
          · rw [if_pos hCrow]
            obtain ⟨j2, hj2, h1, h2, h3⟩ := hCrow
            rw [if_pos ⟨i, List.mem_cons_self i is, hry,
              j2, List.mem_range.mp hj2, h1, h2, h3⟩]
          · rw [if_neg hCrow, if_neg]
            rintro ⟨i2, hi2, hh, j2, hj2, hw, hb, hbuf⟩
            rcases List.mem_cons.mp hi2 with rfl | hi2m
            · exact hCrow ⟨j2, List.mem_range.mpr hj2, hw, hb, hbuf⟩
            · exact hCis ⟨i2, hi2m, hh, j2, hj2, hw, hb, hbuf⟩
      · intro r c
        have hcomp := htbuf r c
        by_cases hri : r = y_c + i
        · have hisn : ¬ (∃ i2 ∈ is, r = y_c + i2 ∧ r < DISPLAY_HEIGHT ∧
              ∃ j2, j2 < 8 ∧ c = x_c + j2 ∧ c < DISPLAY_WIDTH ∧
              sprite_bit s i2 j2 = 1) := by
            rintro ⟨i2, hi2, hr2, -⟩
            have h5 : i2 = i := by omega
            exact hi_notin (h5 ▸ hi2)
          rw [hcomp, if_neg hisn, ht1buf r c]
          refine ite_prop_congr ?_ _ _
          constructor
          · rintro ⟨-, j2, hj2, h1, h2, h3⟩
            exact ⟨i, List.mem_cons_self i is, hri, by omega,
              j2, List.mem_range.mp hj2, h1, h2, h3⟩
          · rintro ⟨i2, hi2, hr2, hrh, j2, hj2, h1, h2, h3⟩
            rcases List.mem_cons.mp hi2 with rfl | hi2m
            · exact ⟨hri, j2, List.mem_range.mpr hj2, h1, h2, h3⟩
            · have h5 : i2 = i := by omega
              exact absurd (h5 ▸ hi2m) hi_notin
        · have hb1 : t1.io.display_buffer r c = s.io.display_buffer r c := by
            rw [ht1buf r c, if_neg]
            rintro ⟨h, -⟩
            exact hri h
          rw [hb1] at hcomp
          rw [hcomp]
          refine ite_prop_congr ?_ _ _
          constructor
          · rintro ⟨i2, hi2, h1, h2, h3⟩
            exact ⟨i2, List.mem_cons_of_mem i hi2, h1, h2, h3⟩
          · rintro ⟨i2, hi2, h1, h2, h3⟩
            rcases List.mem_cons.mp hi2 with rfl | hi2m
            · exact absurd h1 hri
            · exact ⟨i2, hi2m, h1, h2, h3⟩

open Classical in
/-- C4: for every draw instruction, `exec_op_type13` (DXYN) anchors the
sprite at `(Vx mod 64, Vy mod 32)` — only the anchor wraps — skips every
pixel whose row or column falls outside the 64×32 display (clipping, not
wrapping), XORs each in-bounds set sprite bit `(memory[I+i] >> (7−j)) & 1`
into the target cell (a primary cell turns secondary, any other cell turns
primary), never changes a cell under a clear sprite bit, and leaves `VF`
at 1 exactly when some in-bounds set bit hit a primary cell, else at 0
(`VF` is reset before drawing); nothing else changes. -/
theorem draw_sprite_spec (s : Chip8) (op : Opcode)
    (hmem : ∀ i, i < op.n →
      s.registers op.y % DISPLAY_HEIGHT + i < DISPLAY_HEIGHT →
      s.i + i < MEMORY_SIZE) :
    ∃ t, s.exec_op_type13 op = some t ∧
      t.i = s.i ∧ t.memory = s.memory ∧ t.pc = s.pc ∧ t.stack = s.stack ∧
      (∀ r, r ≠ 0xF → t.registers r = s.registers r) ∧
      (t.registers 0xF =
        if ∃ i, i < op.n ∧ s.registers op.y % DISPLAY_HEIGHT + i < DISPLAY_HEIGHT ∧
            ∃ j, j < 8 ∧ s.registers op.x % DISPLAY_WIDTH + j < DISPLAY_WIDTH ∧
            sprite_bit s i j = 1 ∧
            s.io.display_buffer (s.registers op.y % DISPLAY_HEIGHT + i)
              (s.registers op.x % DISPLAY_WIDTH + j) = s.primary_color
         then 1 else 0) ∧
      (∀ r c, t.io.display_buffer r c =
        if ∃ i, i < op.n ∧ r = s.registers op.y % DISPLAY_HEIGHT + i ∧
            r < DISPLAY_HEIGHT ∧ ∃ j, j < 8 ∧
            c = s.registers op.x % DISPLAY_WIDTH + j ∧ c < DISPLAY_WIDTH ∧
            sprite_bit s i j = 1
         then (if s.io.display_buffer r c = s.primary_color
               then s.secondary_color else s.primary_color)
         else s.io.display_buffer r c) := by
  obtain ⟨t, ht, hti, htm, htp, hts, htpc, htsc, htregs, htvf, htbuf⟩ :=
    draw_rows_spec (List.range op.n) (s.set_vf 0)
      (s.registers op.x % DISPLAY_WIDTH) (s.registers op.y % DISPLAY_HEIGHT)
      (List.nodup_range op.n)
      (fun i hi h => hmem i (List.mem_range.mp hi) h)
  refine ⟨t, ht, hti, htm, htp, hts, ?_, ?_, ?_⟩
  · intro r hr
    rw [htregs r hr]
    show (if r = 0xF then (0 : Nat) else s.registers r) = s.registers r
    rw [if_neg hr]
  · have h0 : (s.set_vf 0).registers 0xF = 0 := rfl
    rw [htvf, h0]
    refine ite_prop_congr ?_ _ _
    constructor
    · rintro ⟨i2, hi2, h1, j2, hj2, h2⟩
      exact ⟨i2, List.mem_range.mp hi2, h1, j2, hj2, h2⟩
    · rintro ⟨i2, hi2, h1, j2, hj2, h2⟩
      exact ⟨i2, List.mem_range.mpr hi2, h1, j2, hj2, h2⟩
  · intro r c
    rw [htbuf r c]
    refine ite_prop_congr ?_ _ _
    constructor
    · rintro ⟨i2, hi2, h1, h2, j2, hj2, h3⟩
      exact ⟨i2, List.mem_range.mp hi2, h1, h2, j2, hj2, h3⟩
    · rintro ⟨i2, hi2, h1, h2, j2, hj2, h3⟩
      exact ⟨i2, List.mem_range.mpr hi2, h1, h2, j2, hj2, h3⟩

/-- A state with `I = 0x300`, `memory[0x300] = 0xFF` (one full sprite row)
and `V0 = 0`. -/
def drawTestState : Chip8 :=
  { testState with i := 0x300, memory := fun a => if a = 0x300 then 0xFF else 0 }

open Classical in
/-- C4 witness: the theorem at the concrete instruction D001 (an 8×1
sprite `0xFF` drawn at anchor (0, 0)). -/
theorem draw_sprite_spec_witness :
    ∃ t, drawTestState.exec_op_type13 (Opcode.new 0xD001) = some t ∧
      t.i = drawTestState.i ∧ t.memory = drawTestState.memory ∧
      t.pc = drawTestState.pc ∧ t.stack = drawTestState.stack ∧
      (∀ r, r ≠ 0xF → t.registers r = drawTestState.registers r) ∧
      (t.registers 0xF =
        if ∃ i, i < (Opcode.new 0xD001).n ∧
            drawTestState.registers (Opcode.new 0xD001).y % DISPLAY_HEIGHT + i <
              DISPLAY_HEIGHT ∧
            ∃ j, j < 8 ∧
            drawTestState.registers (Opcode.new 0xD001).x % DISPLAY_WIDTH + j <
              DISPLAY_WIDTH ∧
            sprite_bit drawTestState i j = 1 ∧
            drawTestState.io.display_buffer
              (drawTestState.registers (Opcode.new 0xD001).y % DISPLAY_HEIGHT + i)
              (drawTestState.registers (Opcode.new 0xD001).x % DISPLAY_WIDTH + j) =
              drawTestState.primary_color
         then 1 else 0) ∧
      (∀ r c, t.io.display_buffer r c =
        if ∃ i, i < (Opcode.new 0xD001).n ∧
            r = drawTestState.registers (Opcode.new 0xD001).y % DISPLAY_HEIGHT + i ∧
            r < DISPLAY_HEIGHT ∧ ∃ j, j < 8 ∧
            c = drawTestState.registers (Opcode.new 0xD001).x % DISPLAY_WIDTH + j ∧
            c < DISPLAY_WIDTH ∧ sprite_bit drawTestState i j = 1
         then (if drawTestState.io.display_buffer r c = drawTestState.primary_color
               then drawTestState.secondary_color else drawTestState.primary_color)
         else drawTestState.io.display_buffer r c) :=
  draw_sprite_spec drawTestState (Opcode.new 0xD001) (by decide)
